import Mathlib

/-!
# J* virtual machine: constants, utilities, the import subsystem and tokens

A shallow embedding of `common.h` / `util.h` (runtime constants, the integer
text-length macros, `powerOf2Ceil`, `hashString`), of `vm/import.c`
(`loadSource`, `compileWithModule`, `setModule`, `getModule`, `importModule`),
and of the token types and token macros of `vm/jsrparse/token.h`.

Machine integers are mathematical integers reduced explicitly to their width.
-/

namespace JStar

/-! ## common.h: constants -/

/-- The largest `uint8_t`, from `<stdint.h>`. -/
def UINT8_MAX : Nat := 255

/-- Bits per `char`, from `<limits.h>`. -/
def CHAR_BIT : Nat := 8

/-- Starting frame size (`#define FRAME_SZ 100`). -/
def FRAME_SZ : Nat := 100

/-- Compiler constant `#define MAX_LOCALS UINT8_MAX` ("At most 255 local vars per frame"). -/
def MAX_LOCALS : Nat := UINT8_MAX

/-- Stack size given frames: `#define STACK_SZ FRAME_SZ*(MAX_LOCALS + 1)`. -/
def STACK_SZ : Nat := FRAME_SZ * (MAX_LOCALS + 1)

/-! ## common.h / util.h: base 10 length of integer types

The macros take a type `t`; what they read of it is `sizeof(t)` and whether
`(t)-1 < 0`, that is whether `t` is signed. -/

/-- The macro `STRLEN_FOR_UNSIGNED_TYPE(t)` of `common.h`:
`(((((sizeof(t) * CHAR_BIT)) * 1233) >> 12) + 1)`. -/
def STRLEN_FOR_UNSIGNED_TYPE (sizeofT : Nat) : Nat :=
  (((sizeofT * CHAR_BIT) * 1233) >>> 12) + 1

/-- The macro `STRLEN_FOR_SIGNED_TYPE(t)`, `STRLEN_FOR_UNSIGNED_TYPE(t) + 1`. -/
def STRLEN_FOR_SIGNED_TYPE (sizeofT : Nat) : Nat :=
  STRLEN_FOR_UNSIGNED_TYPE sizeofT + 1

/-- The macro `STRLEN_FOR_INT_TYPE(t)` of `common.h`:
`((t)-1 < 0) ? STRLEN_FOR_SIGNED_TYPE(t) : STRLEN_FOR_UNSIGNED_TYPE(t)`. -/
def STRLEN_FOR_INT_TYPE (isSigned : Bool) (sizeofT : Nat) : Nat :=
  if isSigned then STRLEN_FOR_SIGNED_TYPE sizeofT else STRLEN_FOR_UNSIGNED_TYPE sizeofT

/-- The macro `__MAX_STRLEN_FOR_UNSIGNED_TYPE(t)` of `util.h`:
`(((((sizeof(t) * CHAR_BIT)) * 1233) >> 12) + 1)`. -/
def MAX_STRLEN_FOR_UNSIGNED_TYPE (sizeofT : Nat) : Nat :=
  (((sizeofT * CHAR_BIT) * 1233) >>> 12) + 1

/-- The macro `__MAX_STRLEN_FOR_SIGNED_TYPE(t)` of `util.h`:
`(__MAX_STRLEN_FOR_UNSIGNED_TYPE(t) + 1)`. -/
def MAX_STRLEN_FOR_SIGNED_TYPE (sizeofT : Nat) : Nat :=
  MAX_STRLEN_FOR_UNSIGNED_TYPE sizeofT + 1

/-- The macro `MAX_STRLEN_FOR_INT_TYPE(t)` of `util.h`:
`((t)-1 < 0) ? __MAX_STRLEN_FOR_SIGNED_TYPE(t) : __MAX_STRLEN_FOR_UNSIGNED_TYPE(t)`. -/
def MAX_STRLEN_FOR_INT_TYPE (isSigned : Bool) (sizeofT : Nat) : Nat :=
  if isSigned then MAX_STRLEN_FOR_SIGNED_TYPE sizeofT else MAX_STRLEN_FOR_UNSIGNED_TYPE sizeofT

/-- Number of characters of the base 10 text of a natural number (`0` is one character). -/
def decimalLength (v : Nat) : Nat :=
  if v = 0 then 1 else (Nat.digits 10 v).length

/-- Number of characters of the base 10 text of an integer, the leading `-` included. -/
def intDecimalLength (v : Int) : Nat :=
  if v < 0 then decimalLength v.natAbs + 1 else decimalLength v.natAbs

/-! ## common.h / util.h: utility functions -/

/-- Reduction of a mathematical integer to a 32 bit two's complement `int`. Signed overflow
is undefined in C; the wrap is what the supported targets do. -/
def wrapInt (x : Int) : Int :=
  (x + 2 ^ 31) % 2 ^ 32 - 2 ^ 31

/-- The function `powerOf2Ceil` (the same text in `common.h` and `util.h`) on a 32 bit `int`:
`n--; n |= n >> 1; n |= n >> 2; n |= n >> 4; n |= n >> 8; n |= n >> 16; n++; return n;` -/
def powerOf2Ceil (n : Int) : Int :=
  let n := wrapInt (n - 1)
  let n := Int.lor n (Int.shiftRight n 1)
  let n := Int.lor n (Int.shiftRight n 2)
  let n := Int.lor n (Int.shiftRight n 4)
  let n := Int.lor n (Int.shiftRight n 8)
  let n := Int.lor n (Int.shiftRight n 16)
  wrapInt (n + 1)

/-- The value of a plain `char` object that holds the given octet: the octet itself where
`char` is unsigned, and the two's complement reading (octets from 0x80 are negative) where
`char` is signed. -/
def charValue (charIsSigned : Bool) (octet : Nat) : Int :=
  if charIsSigned && decide (128 ≤ octet) then (octet : Int) - 256 else (octet : Int)

/-- Conversion of an `int` to `uint32_t`: reduction modulo `2^32`. -/
def toUint32 (x : Int) : Nat :=
  (x % 2 ^ 32).toNat

/-- One turn of the loop of `hashString`: `hash ^= str[i]; hash *= 16777619;`. The `char`
`str[i]` is promoted to `int` and converted to `uint32_t` for the exclusive or. -/
def hashStep (charIsSigned : Bool) (hash : Nat) (octet : Nat) : Nat :=
  ((hash ^^^ toUint32 (charValue charIsSigned octet)) * 16777619) % 2 ^ 32

/-- The function `hashString(str, length)` (the same text in `common.h` and `util.h`):
`hash = 2166136261u`, then `hashStep` for
`i = 0 .. length - 1`. The array `str` is given by its octets; an index past its end (undefined
in C) reads 0. -/
def hashString (charIsSigned : Bool) (str : List Nat) (length : Nat) : Nat :=
  (List.range length).foldl (fun hash i => hashStep charIsSigned hash (str.getD i 0)) 2166136261

/-- The 32 bit FNV-1a hash as the specification words it: start from the offset basis
2166136261 and, for each byte in order, exclusive-or the byte into the low 8 bits and multiply
by the prime 16777619 modulo `2^32`. -/
def fnv1a32 (s : List Nat) : Nat :=
  s.foldl (fun hash byte => ((hash ^^^ byte) * 16777619) % 2 ^ 32) 2166136261

/-! ## Hash table (hashtable.h)

The registry of modules and the globals of a module are string-keyed hash tables. -/

/-- Value stored at a key in a list of entries: the first entry with that key. -/
def getEntries {α : Type} (key : String) : List (String × α) → Option α
  | [] => none
  | (k, v) :: rest => if k = key then some v else getEntries key rest

/-- Store a value at a key in a list of entries: overwrite the entry with that key where
there is one, else add a new entry. -/
def putEntries {α : Type} (key : String) (val : α) : List (String × α) → List (String × α)
  | [] => [(key, val)]
  | (k, v) :: rest => if k = key then (key, val) :: rest else (k, v) :: putEntries key val rest

/-- Keys after `putEntries`: the keys before, and the new key when it was absent. -/
theorem putEntries_keys {α : Type} (key : String) (val : α) (l : List (String × α)) :
    (putEntries key val l).map Prod.fst =
      if key ∈ l.map Prod.fst then l.map Prod.fst else l.map Prod.fst ++ [key] := by
  induction l with
  | nil => simp [putEntries]
  | cons e rest ih =>
    obtain ⟨k, v⟩ := e
    by_cases hk : k = key
    · subst hk
      simp [putEntries]
    · have hk2 : ¬ key = k := fun h => hk h.symm
      by_cases hm : key ∈ rest.map Prod.fst
      · simp only [putEntries, if_neg hk, List.map_cons, ih, if_pos hm, List.mem_cons, hm,
          or_true, if_true]
      · simp only [putEntries, if_neg hk, List.map_cons, ih, if_neg hm, List.mem_cons, hm,
          hk2, or_self, if_false, List.cons_append]

/-- No key is stored twice after `putEntries` when none was before. -/
theorem putEntries_nodup {α : Type} (key : String) (val : α) (l : List (String × α))
    (h : (l.map Prod.fst).Nodup) : ((putEntries key val l).map Prod.fst).Nodup := by
  rw [putEntries_keys]
  by_cases hm : key ∈ l.map Prod.fst
  · rw [if_pos hm]
    exact h
  · rw [if_neg hm]
    exact List.Nodup.append h (List.nodup_singleton key) (by simpa using hm)

/-- Modelled from the spec: `hashtable.h` and `hashtable.c` are not among the sources. The
string-keyed map of section 4.2 (open addressing, interned keys compared by identity), taken
at the level of its contents: the entries it holds, no key twice. -/
structure HashTable (α : Type) where
  /-- The live entries. -/
  entries : List (String × α)
  /-- Every key has one entry. -/
  nodup : (entries.map Prod.fst).Nodup

/-- Modelled from the spec: `initHashTable` of `hashtable.c`, the table with no entry. -/
def initHashTable {α : Type} : HashTable α :=
  ⟨[], List.nodup_nil⟩

/-- Modelled from the spec: `hashTableGet` of `hashtable.c`, the value stored at `key`. -/
def hashTableGet {α : Type} (t : HashTable α) (key : String) : Option α :=
  getEntries key t.entries

/-- Modelled from the spec: `hashTableContainsKey` of `hashtable.c`. -/
def hashTableContainsKey {α : Type} (t : HashTable α) (key : String) : Bool :=
  (hashTableGet t key).isSome

/-- Modelled from the spec: `hashTablePut` of `hashtable.c`, insert or overwrite. -/
def hashTablePut {α : Type} (t : HashTable α) (key : String) (val : α) : HashTable α :=
  ⟨putEntries key val t.entries, putEntries_nodup key val t.entries t.nodup⟩

/-- Modelled from the spec: `hashTableMerge` of `hashtable.c`, put every entry of `src` into
`dst`. -/
def hashTableMerge {α : Type} (dst src : HashTable α) : HashTable α :=
  src.entries.foldl (fun acc e => hashTablePut acc e.1 e.2) dst

/-! ## Values, modules and the VM state (object.h, vm.h)

The part of the VM that `import.c` reads and writes: the value stack and the registry of
modules. The heap, the intern table and the collector (`disableGC`) are outside this state. -/

/-- Modelled from the spec: `ObjFunction` of `object.h`, the prototype `compile` returns. -/
structure ObjFunction where
  /-- Function name. -/
  name : String
  /-- Arity. -/
  argsCount : Nat
  /-- Bytecode of the chunk. -/
  code : List Nat
  /-- Name of the owning module. -/
  module : String
deriving DecidableEq, Repr

/-- Modelled from the spec: `Value` of `value.h`. `num` stands for a number, `str` and `fn`
are `OBJ_VAL` of an `ObjString` and of an `ObjFunction`, `obj` is any other heap object. -/
inductive Value where
  | null
  | bool (b : Bool)
  | num (n : Int)
  | str (s : String)
  | fn (f : ObjFunction)
  | obj (ref : Nat)
deriving DecidableEq, Repr

/-- Modelled from the spec: `ObjModule` of `object.h`, a name and a table of globals. -/
structure ObjModule where
  /-- Module name. -/
  name : String
  /-- Globals of the module. -/
  globals : HashTable Value

/-- The state of the VM that the import subsystem touches. `modules` is `vm->modules`: its
only writer, `setModule`, stores `OBJ_VAL(module)`, and `getModule` reads it back with
`AS_MODULE`, so the table is typed by the modules it holds. -/
structure VM where
  /-- The value stack, top last. -/
  stack : List Value
  /-- The registry of modules. -/
  modules : HashTable ObjModule

/-- The call `push(vm, v)`, `*vm->sp++ = v`. -/
def push (vm : VM) (v : Value) : VM :=
  { vm with stack := vm.stack ++ [v] }

/-- Modelled from the spec: `newModule` of `object.c`, a module with no global. -/
def newModule (name : String) : ObjModule :=
  { name := name, globals := initHashTable }

/-- The parser state `importModule` reads after `parse`. -/
structure Parser where
  /-- Whether a syntax error was reported. -/
  hadError : Bool

/-- The collaborators of `import.c` that are not part of it, for an AST type `Stmt`. -/
structure Env (Stmt : Type) where
  /-- The call `readBuiltInModule(name)` of `modules.h`: source of a built-in module. -/
  readBuiltInModule : String → Option String
  /-- The C library on one path, as `loadSource` uses it: the text read from the file, or
  `none` when `fopen(path, "r+")` returns `NULL`, `errno` is `EISDIR`, the buffer is not
  allocated or the read is short. -/
  readFile : String → Option String
  /-- The call `parse(&p, src)` of `parse/parser.h`: the parser state and the program. -/
  parse : String → Parser × Stmt
  /-- The call `compile(vm, module, program)` of `compiler.h`: the function, or `none` for
  `NULL`. It works on its own compiler state and on the heap; the value stack and the registry
  are read only. -/
  compile : VM → ObjModule → Stmt → Option ObjFunction

/-! ## import.c -/

/-- The file name `loadSource` builds: `strcpy(fname, name); strcat(fname + nameLength, ".bl")`. -/
def loadSourceFname (name : String) : String :=
  name ++ ".bl"

/-- The function `loadSource(name)`: read the whole file `fname`, `NULL` on any failure. -/
def loadSource (readFile : String → Option String) (name : String) : Option String :=
  readFile (loadSourceFname name)

/-- The function `getModule(vm, name)`. -/
def getModule (vm : VM) (name : String) : Option ObjModule :=
  hashTableGet vm.modules name

/-- The function `setModule(vm, name, module)`. -/
def setModule (vm : VM) (name : String) (module : ObjModule) : VM :=
  { vm with modules := hashTablePut vm.modules name module }

/-- Lines 53 to 70 of `compileWithModule`: the module to compile against and the state in
which `compile` is called. A registered module is fetched; else a module is created, the
globals of `__core__` are merged into it, `__name__` is set and it is registered. -/
def moduleFor (vm : VM) (name : String) : ObjModule × VM :=
  match getModule vm name with
  | some module => (module, vm)
  | none =>
    let module := newModule name
    let module : ObjModule :=
      match getModule vm "__core__" with
      | some core => { module with globals := hashTableMerge module.globals core.globals }
      | none => module
    let module : ObjModule :=
      { module with globals := hashTablePut module.globals "__name__" (Value.str name) }
    (module, setModule vm name module)

/-- The function `compileWithModule(vm, name, program)`: the function compiled (or `none`)
and the state left. -/
def compileWithModule {Stmt : Type} (env : Env Stmt) (vm : VM) (name : String)
    (program : Stmt) : Option ObjFunction × VM :=
  let (module, vm1) := moduleFor vm name
  (env.compile vm1 module program, vm1)

/-- Lines 95 to 101 of `importModule`: the built-in source, else the source `loadSource`
reads. -/
def findSource {Stmt : Type} (env : Env Stmt) (name : String) : Option String :=
  match env.readBuiltInModule name with
  | some src => some src
  | none => loadSource env.readFile name

/-- The function `importModule(vm, name)`: the flag returned and the state left. -/
def importModule {Stmt : Type} (env : Env Stmt) (vm : VM) (name : String) : Bool × VM :=
  if hashTableContainsKey vm.modules name then
    (true, push vm Value.null)
  else
    match findSource env name with
    | none => (false, vm)
    | some src =>
      let (p, program) := env.parse src
      if p.hadError then
        (false, vm)
      else
        let (fn, vm1) := compileWithModule env vm name program
        match fn with
        | none => (false, vm1)
        | some f => (true, push vm1 (Value.fn f))

/-! ## Concrete states and collaborators

Small instances on which the theorems below are evaluated. The AST type is `String`: the
parser of these instances hands the source text on as the program. -/

/-- A top-level function such as `compile` returns for the module `foo`. -/
def fooMain : ObjFunction :=
  { name := "<main>", argsCount := 0, code := [0, 1, 2], module := "foo" }

/-- A VM with an empty stack and no module registered. -/
def emptyVM : VM :=
  { stack := [], modules := initHashTable }

/-- A core module with two globals, one of them its own `__name__`. -/
def coreModule : ObjModule :=
  { name := "__core__",
    globals := hashTablePut (hashTablePut initHashTable "__name__" (Value.str "__core__"))
      "print" (Value.obj 7) }

/-- A VM as it is after construction: one value on the stack, `__core__` registered. -/
def coreVM : VM :=
  setModule { stack := [Value.num 1], modules := initHashTable } "__core__" coreModule

/-- A file system that holds `foo.bl` alone, a parser that accepts every text but `"("`, and
a compiler that compiles every program to `fooMain`. -/
def fooEnv : Env String :=
  { readBuiltInModule := fun _ => none
    readFile := fun path => if path = "foo.bl" then some "var x = 42" else none
    parse := fun src => ({ hadError := decide (src = "(") }, src)
    compile := fun _ _ _ => some fooMain }

/-- The collaborators of `fooEnv` with a compiler that fails on every program. -/
def failingCompileEnv : Env String :=
  { fooEnv with compile := fun _ _ _ => none }

/-- A file system that holds `foo.jsr` alone. -/
def jsrOnlyFiles (path : String) : Option String :=
  if path = "foo.jsr" then some "var x = 42" else none

/-! ## vm/jsrparse/token.h -/

/-- The enumeration `TokenType` of `vm/jsrparse/token.h`, enumerators in declaration order. -/
inductive TokenType where
  | TOK_LPAREN
  | TOK_RPAREN
  | TOK_LSQUARE
  | TOK_RSQUARE
  | TOK_BANG
  | TOK_BANG_EQ
  | TOK_COMMA
  | TOK_DOT
  | TOK_VARARG
  | TOK_EQUAL
  | TOK_PLUS_EQ
  | TOK_MINUS_EQ
  | TOK_DIV_EQ
  | TOK_MULT_EQ
  | TOK_MOD_EQ
  | TOK_EQUAL_EQUAL
  | TOK_GT
  | TOK_GE
  | TOK_LT
  | TOK_LE
  | TOK_PLUS
  | TOK_MINUS
  | TOK_DIV
  | TOK_MULT
  | TOK_MOD
  | TOK_POW
  | TOK_HASH
  | TOK_HASH_HASH
  | TOK_COLON
  | TOK_SEMICOLON
  | TOK_IN
  | TOK_THEN
  | TOK_DO
  | TOK_BEGIN
  | TOK_END
  | TOK_IDENTIFIER
  | TOK_STRING
  | TOK_NUMBER
  | TOK_AND
  | TOK_CLASS
  | TOK_ELSE
  | TOK_FALSE
  | TOK_NAT
  | TOK_FUN
  | TOK_FOR
  | TOK_IF
  | TOK_ELIF
  | TOK_NULL
  | TOK_OR
  | TOK_PRINT
  | TOK_RETURN
  | TOK_IMPORT
  | TOK_AS
  | TOK_IS
  | TOK_SUPER
  | TOK_TRUE
  | TOK_VAR
  | TOK_WHILE
  | TOK_CONTINUE
  | TOK_BREAK
  | TOK_TRY
  | TOK_EXCEPT
  | TOK_ENSURE
  | TOK_RAISE
  | TOK_UNTERMINATED_STR
  | TOK_NEWLINE
  | TOK_ERR
  | TOK_EOF
deriving DecidableEq, Repr

/-- The integer value of an enumerator: none has an initialiser, so the first is 0 and each
next one is the previous plus one. -/
def TokenType.val : TokenType → Int
  | .TOK_LPAREN => 0
  | .TOK_RPAREN => 1
  | .TOK_LSQUARE => 2
  | .TOK_RSQUARE => 3
  | .TOK_BANG => 4
  | .TOK_BANG_EQ => 5
  | .TOK_COMMA => 6
  | .TOK_DOT => 7
  | .TOK_VARARG => 8
  | .TOK_EQUAL => 9
  | .TOK_PLUS_EQ => 10
  | .TOK_MINUS_EQ => 11
  | .TOK_DIV_EQ => 12
  | .TOK_MULT_EQ => 13
  | .TOK_MOD_EQ => 14
  | .TOK_EQUAL_EQUAL => 15
  | .TOK_GT => 16
  | .TOK_GE => 17
  | .TOK_LT => 18
  | .TOK_LE => 19
  | .TOK_PLUS => 20
  | .TOK_MINUS => 21
  | .TOK_DIV => 22
  | .TOK_MULT => 23
  | .TOK_MOD => 24
  | .TOK_POW => 25
  | .TOK_HASH => 26
  | .TOK_HASH_HASH => 27
  | .TOK_COLON => 28
  | .TOK_SEMICOLON => 29
  | .TOK_IN => 30
  | .TOK_THEN => 31
  | .TOK_DO => 32
  | .TOK_BEGIN => 33
  | .TOK_END => 34
  | .TOK_IDENTIFIER => 35
  | .TOK_STRING => 36
  | .TOK_NUMBER => 37
  | .TOK_AND => 38
  | .TOK_CLASS => 39
  | .TOK_ELSE => 40
  | .TOK_FALSE => 41
  | .TOK_NAT => 42
  | .TOK_FUN => 43
  | .TOK_FOR => 44
  | .TOK_IF => 45
  | .TOK_ELIF => 46
  | .TOK_NULL => 47
  | .TOK_OR => 48
  | .TOK_PRINT => 49
  | .TOK_RETURN => 50
  | .TOK_IMPORT => 51
  | .TOK_AS => 52
  | .TOK_IS => 53
  | .TOK_SUPER => 54
  | .TOK_TRUE => 55
  | .TOK_VAR => 56
  | .TOK_WHILE => 57
  | .TOK_CONTINUE => 58
  | .TOK_BREAK => 59
  | .TOK_TRY => 60
  | .TOK_EXCEPT => 61
  | .TOK_ENSURE => 62
  | .TOK_RAISE => 63
  | .TOK_UNTERMINATED_STR => 64
  | .TOK_NEWLINE => 65
  | .TOK_ERR => 66
  | .TOK_EOF => 67

/-- The macro `IS_ASSIGN(tok)`, `(tok <= TOK_MOD_EQ && tok >= TOK_EQUAL)`. -/
def IS_ASSIGN (tok : Int) : Bool :=
  decide (tok ≤ TokenType.TOK_MOD_EQ.val) && decide (tok ≥ TokenType.TOK_EQUAL.val)

/-- The macro `IS_COMPUND_ASSIGN(tok)`, `(tok <= TOK_MOD_EQ && tok > TOK_EQUAL)`. -/
def IS_COMPUND_ASSIGN (tok : Int) : Bool :=
  decide (tok ≤ TokenType.TOK_MOD_EQ.val) && decide (tok > TokenType.TOK_EQUAL.val)

/-- The macro `_COMPOUND_ASS_TO_OP_OFF`, `(TOK_PLUS - TOK_PLUS_EQ)`. -/
def _COMPOUND_ASS_TO_OP_OFF : Int :=
  TokenType.TOK_PLUS.val - TokenType.TOK_PLUS_EQ.val

/-- The macro `COMPUND_ASS_TO_OP(ass)`, `(ass + _COMPOUND_ASS_TO_OP_OFF)`. -/
def COMPUND_ASS_TO_OP (ass : Int) : Int :=
  ass + _COMPOUND_ASS_TO_OP_OFF

/-- A VM in which `foo` is registered with a module that has no global at all. -/
def fooVM : VM :=
  setModule coreVM "foo" (newModule "foo")

/-! ## Theorems -/

/-! ### Hash table -/

/-- Reading the key just written gives the value written. -/
theorem getEntries_putEntries_self {α : Type} (key : String) (val : α)
    (l : List (String × α)) : getEntries key (putEntries key val l) = some val := by
  induction l with
  | nil => simp [putEntries, getEntries]
  | cons e rest ih =>
    obtain ⟨k, v⟩ := e
    by_cases hk : k = key
    · simp [putEntries, getEntries, hk]
    · simp [putEntries, getEntries, hk, ih]

/-- Writing a key leaves the value at every other key as it was. -/
theorem getEntries_putEntries_ne {α : Type} (key other : String) (val : α)
    (l : List (String × α)) (h : other ≠ key) :
    getEntries other (putEntries key val l) = getEntries other l := by
  induction l with
  | nil =>
    have h2 : ¬ key = other := fun e => h e.symm
    simp [putEntries, getEntries, h2]
  | cons e rest ih =>
    obtain ⟨k, v⟩ := e
    by_cases hk : k = key
    · have h2 : ¬ key = other := fun e => h e.symm
      simp [putEntries, getEntries, hk, h2]
    · by_cases hko : k = other
      · subst hko
        simp [putEntries, getEntries, h]
      · simp [putEntries, getEntries, hk, hko, ih]

/-- A key without entry reads as absent. -/
theorem getEntries_of_not_mem {α : Type} (key : String) (l : List (String × α))
    (h : key ∉ l.map Prod.fst) : getEntries key l = none := by
  induction l with
  | nil => rfl
  | cons e rest ih =>
    obtain ⟨k, v⟩ := e
    have hk : ¬ k = key := fun e => h (by simp [e])
    have hr : key ∉ rest.map Prod.fst := fun hm => h (by simp at hm ⊢; exact Or.inr hm)
    simp [getEntries, hk, ih hr]

/-- The value at the key just put. -/
theorem hashTableGet_put_self {α : Type} (t : HashTable α) (key : String) (val : α) :
    hashTableGet (hashTablePut t key val) key = some val :=
  getEntries_putEntries_self key val t.entries

/-- The value at a key other than the one just put. -/
theorem hashTableGet_put_ne {α : Type} (t : HashTable α) (key other : String) (val : α)
    (h : other ≠ key) : hashTableGet (hashTablePut t key val) other = hashTableGet t other :=
  getEntries_putEntries_ne key other val t.entries h

/-- Putting a list of entries with distinct keys, one after the other: a key of the list reads
as the list has it, any other key as before. -/
theorem hashTableGet_foldl_put {α : Type} (l : List (String × α))
    (hl : (l.map Prod.fst).Nodup) (dst : HashTable α) (key : String) :
    hashTableGet (l.foldl (fun acc e => hashTablePut acc e.1 e.2) dst) key =
      match getEntries key l with
      | some v => some v
      | none => hashTableGet dst key := by
  induction l generalizing dst with
  | nil => rfl
  | cons e rest ih =>
    obtain ⟨k, v⟩ := e
    have hnd : (rest.map Prod.fst).Nodup := (List.nodup_cons.mp hl).2
    have hkn : k ∉ rest.map Prod.fst := (List.nodup_cons.mp hl).1
    rw [List.foldl_cons, ih hnd]
    by_cases hk : k = key
    · subst hk
      simp [getEntries, getEntries_of_not_mem k rest hkn, hashTableGet_put_self]
    · have hk2 : key ≠ k := fun e => hk e.symm
      simp [getEntries, hk, hashTableGet_put_ne _ _ _ _ hk2]

/-- After a merge every key of the source reads as in the source. -/
theorem hashTableGet_merge_of_src {α : Type} (dst src : HashTable α) (key : String) (val : α)
    (h : hashTableGet src key = some val) :
    hashTableGet (hashTableMerge dst src) key = some val := by
  unfold hashTableMerge
  rw [hashTableGet_foldl_put src.entries src.nodup dst key]
  unfold hashTableGet at h
  rw [h]

/-- Membership test and lookup agree. -/
theorem hashTableContainsKey_eq_false {α : Type} (t : HashTable α) (key : String) :
    hashTableContainsKey t key = false ↔ hashTableGet t key = none := by
  unfold hashTableContainsKey
  cases hashTableGet t key <;> simp

/-! ### import.c -/

/-- The module and the state `moduleFor` gives for a name that is not registered. -/
theorem moduleFor_fresh (vm : VM) (name : String) (h : getModule vm name = none) :
    moduleFor vm name =
      ({ name := name,
         globals := hashTablePut
           (match getModule vm "__core__" with
            | some core => hashTableMerge initHashTable core.globals
            | none => initHashTable) "__name__" (Value.str name) },
       setModule vm name
        { name := name,
          globals := hashTablePut
            (match getModule vm "__core__" with
             | some core => hashTableMerge initHashTable core.globals
             | none => initHashTable) "__name__" (Value.str name) }) := by
  unfold moduleFor
  rw [h]
  cases getModule vm "__core__" <;> rfl



/-- The lookup `findSource` fails exactly when both the built-in registry and `loadSource`
fail. -/
theorem findSource_eq_none {Stmt : Type} (env : Env Stmt) (name : String) :
    findSource env name = none ↔
      env.readBuiltInModule name = none ∧ loadSource env.readFile name = none := by
  unfold findSource
  cases env.readBuiltInModule name <;> simp

/-- What `importModule` does once the name is not registered, a source is found and it
parses: the outcome of `compileWithModule` decides. -/
theorem importModule_compiles {Stmt : Type} (env : Env Stmt) (vm : VM) (name src : String)
    (hnot : hashTableContainsKey vm.modules name = false)
    (hsrc : findSource env name = some src)
    (hparse : (env.parse src).1.hadError = false) :
    importModule env vm name =
      match (compileWithModule env vm name (env.parse src).2).1 with
      | none => (false, (moduleFor vm name).2)
      | some f => (true, push (moduleFor vm name).2 (Value.fn f)) := by
  unfold importModule
  rw [hnot, hsrc]
  simp only [Bool.false_eq_true, if_false, hparse]
  unfold compileWithModule
  cases env.compile (moduleFor vm name).2 (moduleFor vm name).1 (env.parse src).2 <;> rfl

/-- The registry after `moduleFor` on a name that is not registered holds the new module
under that name. -/
theorem getModule_moduleFor_fresh (vm : VM) (name : String)
    (hnot : hashTableContainsKey vm.modules name = false) :
    getModule (moduleFor vm name).2 name = some (moduleFor vm name).1 := by
  have hg : getModule vm name = none := (hashTableContainsKey_eq_false _ _).mp hnot
  rw [moduleFor_fresh vm name hg]
  exact hashTableGet_put_self _ _ _

/-- C1: when `name` is a key of the registry, `importModule` returns true, pushes the single
value null, leaves the registry as it was, and its outcome is the same whatever the built-in
registry, the file system, the parser and the compiler are: none of them is consulted. -/
theorem importModule_registered {Stmt : Type} (env : Env Stmt) (vm : VM) (name : String)
    (h : hashTableContainsKey vm.modules name = true) :
    (importModule env vm name).1 = true ∧
      (importModule env vm name).2.stack = vm.stack ++ [Value.null] ∧
      (importModule env vm name).2.modules = vm.modules ∧
      ∀ env2 : Env Stmt, importModule env2 vm name = importModule env vm name := by
  have key : ∀ e : Env Stmt, importModule e vm name = (true, push vm Value.null) := by
    intro e
    unfold importModule
    rw [h]
    rfl
  rw [key env]
  exact ⟨rfl, rfl, rfl, fun e => key e⟩

/-- C1 at `coreVM`, where `__core__` is registered. -/
theorem importModule_registered_witness :
    (importModule fooEnv coreVM "__core__").1 = true ∧
      (importModule fooEnv coreVM "__core__").2.stack = coreVM.stack ++ [Value.null] ∧
      (importModule fooEnv coreVM "__core__").2.modules = coreVM.modules ∧
      ∀ env2 : Env String,
        importModule env2 coreVM "__core__" = importModule fooEnv coreVM "__core__" :=
  importModule_registered fooEnv coreVM "__core__" (by decide)

/-- C2: when `name` is not registered, a source is found, the parser reports no error and
compilation yields `fn`, `importModule` returns true, pushes the single value `fn` (which is
not null), and `name` is then registered, mapped to the module `compile` was called with. -/
theorem importModule_fresh_pushes_function {Stmt : Type} (env : Env Stmt) (vm : VM)
    (name src : String) (fn : ObjFunction)
    (hnot : hashTableContainsKey vm.modules name = false)
    (hsrc : findSource env name = some src)
    (hparse : (env.parse src).1.hadError = false)
    (hcomp : (compileWithModule env vm name (env.parse src).2).1 = some fn) :
    (importModule env vm name).1 = true ∧
      (importModule env vm name).2.stack = vm.stack ++ [Value.fn fn] ∧
      Value.fn fn ≠ Value.null ∧
      hashTableContainsKey (importModule env vm name).2.modules name = true ∧
      getModule (importModule env vm name).2 name = some (moduleFor vm name).1 ∧
      env.compile (moduleFor vm name).2 (moduleFor vm name).1 (env.parse src).2 = some fn := by
  have hreg := getModule_moduleFor_fresh vm name hnot
  have hg : getModule vm name = none := (hashTableContainsKey_eq_false _ _).mp hnot
  have hstack : (moduleFor vm name).2.stack = vm.stack := by
    rw [moduleFor_fresh vm name hg]
    rfl
  rw [importModule_compiles env vm name src hnot hsrc hparse, hcomp]
  refine ⟨rfl, ?_, ?_, ?_, hreg, hcomp⟩
  · show (moduleFor vm name).2.stack ++ [Value.fn fn] = vm.stack ++ [Value.fn fn]
    rw [hstack]
  · intro hne
    cases hne
  · show hashTableContainsKey (moduleFor vm name).2.modules name = true
    unfold hashTableContainsKey
    unfold getModule at hreg
    rw [hreg]
    rfl

/-- C2 at `coreVM` and `fooEnv`: importing `foo` pushes `fooMain`. -/
theorem importModule_fresh_pushes_function_witness :
    (importModule fooEnv coreVM "foo").1 = true ∧
      (importModule fooEnv coreVM "foo").2.stack = coreVM.stack ++ [Value.fn fooMain] ∧
      Value.fn fooMain ≠ Value.null ∧
      hashTableContainsKey (importModule fooEnv coreVM "foo").2.modules "foo" = true ∧
      getModule (importModule fooEnv coreVM "foo").2 "foo" = some (moduleFor coreVM "foo").1 ∧
      fooEnv.compile (moduleFor coreVM "foo").2 (moduleFor coreVM "foo").1
        (fooEnv.parse "var x = 42").2 = some fooMain :=
  importModule_fresh_pushes_function fooEnv coreVM "foo" "var x = 42" fooMain
    (by decide) (by decide) (by decide) rfl

/-- C3: when `name` is not registered, `compileWithModule` calls `compile` in a state where a
new module is registered under `name` (every other key of the registry reads as before); the
globals of that module hold every global of `__core__`, when `__core__` is registered, with
the value it has there, the key `__name__` apart, and hold `__name__` bound to the string
`name`, whatever `__core__` binds `__name__` to. -/
theorem compileWithModule_fresh_module {Stmt : Type} (env : Env Stmt) (vm : VM)
    (name : String) (program : Stmt)
    (hnot : hashTableContainsKey vm.modules name = false) :
    compileWithModule env vm name program =
        (env.compile (moduleFor vm name).2 (moduleFor vm name).1 program,
          (moduleFor vm name).2) ∧
      getModule (moduleFor vm name).2 name = some (moduleFor vm name).1 ∧
      (∀ other : String, other ≠ name →
        getModule (moduleFor vm name).2 other = getModule vm other) ∧
      (moduleFor vm name).1.name = name ∧
      (∀ core : ObjModule, getModule vm "__core__" = some core →
        ∀ (k : String) (v : Value), k ≠ "__name__" → hashTableGet core.globals k = some v →
          hashTableGet (moduleFor vm name).1.globals k = some v) ∧
      hashTableGet (moduleFor vm name).1.globals "__name__" = some (Value.str name) := by
  have hg : getModule vm name = none := (hashTableContainsKey_eq_false _ _).mp hnot
  refine ⟨rfl, getModule_moduleFor_fresh vm name hnot, ?_, ?_, ?_, ?_⟩
  · intro other hne
    rw [moduleFor_fresh vm name hg]
    exact hashTableGet_put_ne _ _ _ _ hne
  · rw [moduleFor_fresh vm name hg]
  · intro core hcore k v hk hv
    rw [moduleFor_fresh vm name hg, hcore]
    show hashTableGet (hashTablePut (hashTableMerge initHashTable core.globals) "__name__"
      (Value.str name)) k = some v
    rw [hashTableGet_put_ne _ _ _ _ hk]
    exact hashTableGet_merge_of_src _ _ _ _ hv
  · rw [moduleFor_fresh vm name hg]
    exact hashTableGet_put_self _ _ _

/-- C3 at `coreVM`, whose `__core__` binds `__name__` and `print`, for the name `foo`. -/
theorem compileWithModule_fresh_module_witness :
    compileWithModule fooEnv coreVM "foo" "var x = 42" =
        (fooEnv.compile (moduleFor coreVM "foo").2 (moduleFor coreVM "foo").1 "var x = 42",
          (moduleFor coreVM "foo").2) ∧
      getModule (moduleFor coreVM "foo").2 "foo" = some (moduleFor coreVM "foo").1 ∧
      (∀ other : String, other ≠ "foo" →
        getModule (moduleFor coreVM "foo").2 other = getModule coreVM other) ∧
      (moduleFor coreVM "foo").1.name = "foo" ∧
      (∀ core : ObjModule, getModule coreVM "__core__" = some core →
        ∀ (k : String) (v : Value), k ≠ "__name__" → hashTableGet core.globals k = some v →
          hashTableGet (moduleFor coreVM "foo").1.globals k = some v) ∧
      hashTableGet (moduleFor coreVM "foo").1.globals "__name__" = some (Value.str "foo") :=
  compileWithModule_fresh_module fooEnv coreVM "foo" "var x = 42" (by decide)

/-- C4: when `name` is not registered and either no source is found (the built-in registry
and `loadSource` both fail) or the source found does not parse, `importModule` returns false
and leaves the VM as it was: nothing is pushed, the registry is unchanged and `name` is still
not registered. -/
theorem importModule_no_source_or_syntax_error {Stmt : Type} (env : Env Stmt) (vm : VM)
    (name : String)
    (hnot : hashTableContainsKey vm.modules name = false)
    (hfail : (env.readBuiltInModule name = none ∧ loadSource env.readFile name = none) ∨
      ∃ src : String, findSource env name = some src ∧ (env.parse src).1.hadError = true) :
    (importModule env vm name).1 = false ∧
      (importModule env vm name).2.stack = vm.stack ∧
      (importModule env vm name).2.modules = vm.modules ∧
      hashTableContainsKey (importModule env vm name).2.modules name = false := by
  have key : importModule env vm name = (false, vm) := by
    unfold importModule
    rw [hnot]
    rcases hfail with hnone | ⟨src, hsrc, herr⟩
    · rw [(findSource_eq_none env name).mpr hnone]
      rfl
    · rw [hsrc]
      simp only [Bool.false_eq_true, if_false, herr, if_true]
  rw [key]
  exact ⟨rfl, rfl, rfl, hnot⟩

/-- C4 at `coreVM` and `fooEnv`, for the name `bar`, which has no source. -/
theorem importModule_no_source_or_syntax_error_witness :
    (importModule fooEnv coreVM "bar").1 = false ∧
      (importModule fooEnv coreVM "bar").2.stack = coreVM.stack ∧
      (importModule fooEnv coreVM "bar").2.modules = coreVM.modules ∧
      hashTableContainsKey (importModule fooEnv coreVM "bar").2.modules "bar" = false :=
  importModule_no_source_or_syntax_error fooEnv coreVM "bar" (by decide)
    (Or.inl ⟨rfl, by decide⟩)

/-- C7 (as stated, refuted): for the module `foo` the file name built is not `foo.jsr`, and
on a file system that holds `foo.jsr` alone `loadSource` finds no source. -/
theorem loadSource_does_not_open_jsr :
    loadSourceFname "foo" ≠ "foo" ++ ".jsr" ∧ loadSource jsrOnlyFiles "foo" = none := by
  decide

/-- C7 (amended): for every module name the file name `loadSource` builds, and the one path
it reads, is the name followed by `.bl`; it is never the name followed by `.jsr`. -/
theorem loadSource_opens_bl (name : String) :
    loadSourceFname name = name ++ ".bl" ∧
      (∀ readFile : String → Option String,
        loadSource readFile name = readFile (name ++ ".bl")) ∧
      loadSourceFname name ≠ name ++ ".jsr" := by
  refine ⟨rfl, fun _ => rfl, ?_⟩
  intro h
  have hlen := congrArg String.length h
  unfold loadSourceFname at hlen
  rw [String.length_append, String.length_append] at hlen
  have h3 : ".bl".length = 3 := by decide
  have h4 : ".jsr".length = 4 := by decide
  omega

/-- C10: when `name` is not registered, a source is found and parses, and compilation fails,
`importModule` returns false and pushes nothing, yet `name` is left registered with the
module just created; importing `name` again in that state returns true, leaves the stack as
the original stack followed by the single value null, and leaves the registry as it is,
whatever the collaborators are (nothing is compiled). -/
theorem importModule_compile_failure_leaves_module {Stmt : Type} (env : Env Stmt) (vm : VM)
    (name src : String)
    (hnot : hashTableContainsKey vm.modules name = false)
    (hsrc : findSource env name = some src)
    (hparse : (env.parse src).1.hadError = false)
    (hcomp : (compileWithModule env vm name (env.parse src).2).1 = none) :
    (importModule env vm name).1 = false ∧
      (importModule env vm name).2.stack = vm.stack ∧
      getModule (importModule env vm name).2 name = some (moduleFor vm name).1 ∧
      hashTableContainsKey (importModule env vm name).2.modules name = true ∧
      (moduleFor vm name).1.name = name ∧
      ∀ env2 : Env Stmt,
        (importModule env2 (importModule env vm name).2 name).1 = true ∧
          (importModule env2 (importModule env vm name).2 name).2.stack =
            vm.stack ++ [Value.null] ∧
          (importModule env2 (importModule env vm name).2 name).2.modules =
            (importModule env vm name).2.modules := by
  have hreg := getModule_moduleFor_fresh vm name hnot
  have hg : getModule vm name = none := (hashTableContainsKey_eq_false _ _).mp hnot
  have hstack : (moduleFor vm name).2.stack = vm.stack := by
    rw [moduleFor_fresh vm name hg]
    rfl
  have hname : (moduleFor vm name).1.name = name := by
    rw [moduleFor_fresh vm name hg]
  have hcont : hashTableContainsKey (moduleFor vm name).2.modules name = true := by
    unfold hashTableContainsKey
    unfold getModule at hreg
    rw [hreg]
    rfl
  have hagain : ∀ env2 : Env Stmt, importModule env2 (moduleFor vm name).2 name =
      (true, push (moduleFor vm name).2 Value.null) := by
    intro env2
    unfold importModule
    rw [hcont]
    rfl
  rw [importModule_compiles env vm name src hnot hsrc hparse, hcomp]
  refine ⟨rfl, hstack, hreg, hcont, hname, ?_⟩
  intro env2
  show (importModule env2 (moduleFor vm name).2 name).1 = true ∧
    (importModule env2 (moduleFor vm name).2 name).2.stack = vm.stack ++ [Value.null] ∧
    (importModule env2 (moduleFor vm name).2 name).2.modules = (moduleFor vm name).2.modules
  rw [hagain env2]
  refine ⟨rfl, ?_, rfl⟩
  show (moduleFor vm name).2.stack ++ [Value.null] = vm.stack ++ [Value.null]
  rw [hstack]

/-- C10 at `coreVM` with the compiler that always fails, for the name `foo`. -/
theorem importModule_compile_failure_leaves_module_witness :
    (importModule failingCompileEnv coreVM "foo").1 = false ∧
      (importModule failingCompileEnv coreVM "foo").2.stack = coreVM.stack ∧
      getModule (importModule failingCompileEnv coreVM "foo").2 "foo" =
        some (moduleFor coreVM "foo").1 ∧
      hashTableContainsKey (importModule failingCompileEnv coreVM "foo").2.modules "foo" =
        true ∧
      (moduleFor coreVM "foo").1.name = "foo" ∧
      ∀ env2 : Env String,
        (importModule env2 (importModule failingCompileEnv coreVM "foo").2 "foo").1 = true ∧
          (importModule env2 (importModule failingCompileEnv coreVM "foo").2 "foo").2.stack =
            coreVM.stack ++ [Value.null] ∧
          (importModule env2 (importModule failingCompileEnv coreVM "foo").2 "foo").2.modules =
            (importModule failingCompileEnv coreVM "foo").2.modules :=
  importModule_compile_failure_leaves_module failingCompileEnv coreVM "foo" "var x = 42"
    (by decide) (by decide) (by decide) rfl

/-! ### hashString -/

/-- Folding over the indices of a list and reading each index is folding over the list. -/
theorem foldl_range_getD (f : Nat → Nat → Nat) (s : List Nat) (init : Nat) :
    (List.range s.length).foldl (fun hash i => f hash (s.getD i 0)) init = s.foldl f init := by
  induction s generalizing init with
  | nil => rfl
  | cons a t ih =>
    rw [List.length_cons, List.range_succ_eq_map, List.foldl_cons, List.foldl_map]
    exact ih (f init a)

/-- Folding two step functions that agree on the elements of the list. -/
theorem foldl_congr_mem (f g : Nat → Nat → Nat) (s : List Nat) (init : Nat)
    (h : ∀ hash b, b ∈ s → f hash b = g hash b) : s.foldl f init = s.foldl g init := by
  induction s generalizing init with
  | nil => rfl
  | cons a t ih =>
    rw [List.foldl_cons, List.foldl_cons, h init a (List.mem_cons_self a t)]
    exact ih _ (fun hash b hb => h hash b (List.mem_cons_of_mem a hb))

/-- Where `char` is unsigned `hashString` is FNV-1a on every octet sequence. -/
theorem hashString_unsigned_char (s : List Nat) (hs : ∀ b ∈ s, b < 256) :
    hashString false s s.length = fnv1a32 s := by
  unfold hashString fnv1a32
  rw [foldl_range_getD (hashStep false) s]
  apply foldl_congr_mem
  intro hash b hb
  have hb2 := hs b hb
  unfold hashStep toUint32 charValue
  have hmod : ((b : Int) % 4294967296).toNat = b := by omega
  simp [hmod]

/-- Where `char` is signed `hashString` is FNV-1a on the sequences of octets below 0x80. -/
theorem hashString_signed_char_ascii (s : List Nat) (hs : ∀ b ∈ s, b < 128) :
    hashString true s s.length = fnv1a32 s := by
  unfold hashString fnv1a32
  rw [foldl_range_getD (hashStep true) s]
  apply foldl_congr_mem
  intro hash b hb
  have hb2 := hs b hb
  unfold hashStep toUint32 charValue
  have hn : ¬ 128 ≤ b := by omega
  have hmod : ((b : Int) % 4294967296).toNat = b := by omega
  simp [hn, hmod]

/-- C5 (the code at the failing input): where `char` is signed, the one-octet string 0x80
hashes to 83079839, while its FNV-1a hash is 2232128415: the octet is sign-extended to
0xFFFFFF80 before the exclusive or. The empty string hashes to the offset basis. -/
theorem hashString_signed_char_high_octet :
    toUint32 (charValue true 128) = 4294967168 ∧
      hashString true [128] 1 = 83079839 ∧ fnv1a32 [128] = 2232128415 ∧
      hashString true [128] 1 ≠ fnv1a32 [128] ∧
      hashString true [] 0 = 2166136261 := by
  decide

/-! ### powerOf2Ceil -/

/-- One smearing step doubles the window of bits gathered into each position. -/
theorem testBit_or_shiftRight_window (x m k : Nat)
    (h : ∀ i, x.testBit i = true ↔ ∃ d, d < k ∧ m.testBit (i + d) = true) (i : Nat) :
    (x ||| x >>> k).testBit i = true ↔ ∃ d, d < 2 * k ∧ m.testBit (i + d) = true := by
  rw [Nat.testBit_or, Bool.or_eq_true, Nat.testBit_shiftRight, h i, h (k + i)]
  constructor
  · rintro (⟨d, hd, hb⟩ | ⟨d, hd, hb⟩)
    · exact ⟨d, by omega, hb⟩
    · refine ⟨k + d, by omega, ?_⟩
      rw [← hb]
      congr 1
      omega
  · rintro ⟨d, hd, hb⟩
    by_cases hk : d < k
    · exact Or.inl ⟨d, hk, hb⟩
    · refine Or.inr ⟨d - k, by omega, ?_⟩
      rw [← hb]
      congr 1
      omega

/-- The five smearing steps on a number below `2^32` set every bit below its highest one. -/
theorem smear_eq_two_pow_size_sub_one (m : Nat) (hm : m < 2 ^ 32) :
    let a := m ||| m >>> 1
    let b := a ||| a >>> 2
    let c := b ||| b >>> 4
    let d := c ||| c >>> 8
    (d ||| d >>> 16) = 2 ^ m.size - 1 := by
  intro a b c d
  have h0 : ∀ i, m.testBit i = true ↔ ∃ e, e < 1 ∧ m.testBit (i + e) = true := by
    intro i
    constructor
    · intro hb
      exact ⟨0, by omega, hb⟩
    · rintro ⟨e, he, hb⟩
      have : e = 0 := by omega
      subst this
      exact hb
  have h1 := testBit_or_shiftRight_window m m 1 h0
  have h2 := testBit_or_shiftRight_window a m 2 h1
  have h3 := testBit_or_shiftRight_window b m 4 h2
  have h4 := testBit_or_shiftRight_window c m 8 h3
  have h5 := testBit_or_shiftRight_window d m 16 h4
  apply Nat.eq_of_testBit_eq
  intro i
  rw [Nat.testBit_two_pow_sub_one, Bool.eq_iff_iff, h5 i, decide_eq_true_iff]
  have hsz : m.size ≤ 32 := Nat.size_le.mpr hm
  constructor
  · rintro ⟨e, _, hb⟩
    by_contra hlt
    have hle : m.size ≤ i + e := by omega
    have : m < 2 ^ (i + e) := Nat.size_le.mp hle
    rw [Nat.testBit_lt_two_pow this] at hb
    exact Bool.false_ne_true hb
  · intro hi
    have hpos : 0 < m.size := by omega
    have hge : 2 ^ (m.size - 1) ≤ m := Nat.lt_size.mp (by omega)
    obtain ⟨j, hj, hb⟩ := Nat.ge_two_pow_implies_high_bit_true hge
    have hjlt : j < m.size := by
      by_contra hnot
      have : m < 2 ^ j := Nat.size_le.mp (by omega)
      rw [Nat.testBit_lt_two_pow this] at hb
      exact Bool.false_ne_true hb
    refine ⟨j - i, by omega, ?_⟩
    rw [← hb]
    congr 1
    omega

/-- On `n = m + 1` with `m < 2^30` the function returns `2 ^ m.size`. -/
theorem powerOf2Ceil_succ (m : Nat) (hm : m < 2 ^ 30) :
    powerOf2Ceil ((m : Int) + 1) = ((2 ^ m.size : Nat) : Int) := by
  have hw : wrapInt ((m : Int) + 1 - 1) = (m : Int) := by
    unfold wrapInt
    have : (m : Int) < 2 ^ 30 := by exact_mod_cast hm
    omega
  have hsz : m.size ≤ 30 := Nat.size_le.mpr hm
  have hpow : 2 ^ m.size ≤ 2 ^ 30 := Nat.pow_le_pow_right (by norm_num) hsz
  have hpos : 0 < 2 ^ m.size := Nat.pow_pos (by norm_num)
  have hsm := smear_eq_two_pow_size_sub_one m (lt_trans hm (by norm_num))
  simp only at hsm
  unfold powerOf2Ceil
  simp only [hw]
  have hcast : ∀ (a k : Nat), Int.lor (a : Int) (Int.shiftRight (a : Int) k)
      = ((a ||| a >>> k : Nat) : Int) := fun a k => rfl
  rw [hcast, hcast, hcast, hcast, hcast, hsm]
  unfold wrapInt
  have h1 : ((2 ^ m.size - 1 : Nat) : Int) = ((2 ^ m.size : Nat) : Int) - 1 := by
    omega
  have h2 : ((2 ^ m.size : Nat) : Int) ≤ 2 ^ 30 := by exact_mod_cast hpow
  have h3 : (0 : Int) < ((2 ^ m.size : Nat) : Int) := by exact_mod_cast hpos
  rw [h1]
  omega

/-- C6: for every `int` `n` with `1 ≤ n ≤ 2^30`, `powerOf2Ceil n` is a power of two, is at least
`n` and below `2 * n`; it is the least power of two that is at least `n`, and it is `n` itself
exactly when `n` is a power of two. -/
theorem powerOf2Ceil_least_power_of_two (n : Int) (h1 : 1 ≤ n) (h2 : n ≤ 2 ^ 30) :
    (∃ x : Nat, powerOf2Ceil n = 2 ^ x) ∧
      n ≤ powerOf2Ceil n ∧
      powerOf2Ceil n < 2 * n ∧
      (∀ y : Nat, n ≤ 2 ^ y → powerOf2Ceil n ≤ 2 ^ y) ∧
      (powerOf2Ceil n = n ↔ ∃ y : Nat, n = 2 ^ y) := by
  obtain ⟨m, rfl⟩ : ∃ m : Nat, n = (m : Int) + 1 := ⟨(n - 1).toNat, by omega⟩
  have hm : m < 2 ^ 30 := by
    have : (m : Int) < 2 ^ 30 := by omega
    exact_mod_cast this
  rw [powerOf2Ceil_succ m hm]
  have hlt : m < 2 ^ m.size := Nat.lt_size_self m
  have hhalf : 2 ^ m.size < 2 * (m + 1) := by
    by_cases h0 : m.size = 0
    · rw [h0]
      omega
    · have hge : 2 ^ (m.size - 1) ≤ m := Nat.lt_size.mp (by omega)
      have hsplit : 2 ^ m.size = 2 * 2 ^ (m.size - 1) := by
        rw [← pow_succ']
        congr 1
        omega
      omega
  have hleast : ∀ y : Nat, m + 1 ≤ 2 ^ y → 2 ^ m.size ≤ 2 ^ y := by
    intro y hy
    by_contra hnot
    have hyx : y < m.size := by
      by_contra hge
      exact hnot (Nat.pow_le_pow_right (by norm_num) (by omega))
    have hstep : 2 ^ (y + 1) ≤ 2 ^ m.size := Nat.pow_le_pow_right (by norm_num) hyx
    rw [pow_succ] at hstep
    omega
  refine ⟨⟨m.size, by push_cast; rfl⟩, ?_, ?_, ?_, ?_⟩
  · have : m + 1 ≤ 2 ^ m.size := hlt
    exact_mod_cast this
  · exact_mod_cast hhalf
  · intro y hy
    have hy2 : m + 1 ≤ 2 ^ y := by exact_mod_cast hy
    exact_mod_cast hleast y hy2
  · constructor
    · intro heq
      exact ⟨m.size, by rw [← heq]; push_cast; rfl⟩
    · rintro ⟨y, hy⟩
      have hy2 : m + 1 = 2 ^ y := by exact_mod_cast hy
      have hle := hleast y (le_of_eq hy2)
      have : 2 ^ m.size = m + 1 := by omega
      exact_mod_cast this

/-- C6 at `n = 5`, where the result is 8. -/
theorem powerOf2Ceil_least_power_of_two_witness :
    (∃ x : Nat, powerOf2Ceil 5 = 2 ^ x) ∧
      (5 : Int) ≤ powerOf2Ceil 5 ∧
      powerOf2Ceil 5 < 2 * 5 ∧
      (∀ y : Nat, (5 : Int) ≤ 2 ^ y → powerOf2Ceil 5 ≤ 2 ^ y) ∧
      (powerOf2Ceil 5 = 5 ↔ ∃ y : Nat, (5 : Int) = 2 ^ y) :=
  powerOf2Ceil_least_power_of_two 5 (by decide) (by norm_num)

/-! ### Base 10 length of integer types -/

/-- A number below `10^k`, with `k` positive, has at most `k` characters. -/
theorem decimalLength_le_of_lt_pow (v k : Nat) (hk : 0 < k) (h : v < 10 ^ k) :
    decimalLength v ≤ k := by
  unfold decimalLength
  split
  · exact hk
  · by_contra hnot
    have hlen : k ≤ (Nat.digits 10 v).length - 1 := by omega
    have hne : Nat.digits 10 v ≠ [] := by
      intro he
      rw [he] at hnot
      simp at hnot
    have hlow : 10 ^ ((Nat.digits 10 v).length - 1) ≤ v := by
      have := Nat.base_pow_length_digits_le 10 v (by norm_num) (by assumption)
      have hsplit : 10 ^ (Nat.digits 10 v).length = 10 * 10 ^ ((Nat.digits 10 v).length - 1) := by
        rw [← pow_succ']
        congr 1
        have : 0 < (Nat.digits 10 v).length := List.length_pos.mpr hne
        omega
      omega
    have : 10 ^ k ≤ 10 ^ ((Nat.digits 10 v).length - 1) := Nat.pow_le_pow_right (by norm_num) hlen
    omega


/-- C8: for a type of 1, 2, 4 or 8 bytes (width `w` = 8, 16, 32 or 64 bits), the constant for
the unsigned type (the same under its `common.h` and its `util.h` name) is
`((w * 1233) >> 12) + 1` and bounds the number of decimal digits of every
value below `2^w`, of `2^w - 1` in particular; the constant for the signed type is one more and
bounds the length of the decimal text, sign included, of every value from `-2^(w-1)` to
`2^(w-1) - 1`, of `-2^(w-1)` in particular. -/
theorem STRLEN_FOR_INT_TYPE_bounds (sizeofT : Nat)
    (hw : sizeofT = 1 ∨ sizeofT = 2 ∨ sizeofT = 4 ∨ sizeofT = 8) :
    (∀ isSigned : Bool,
        MAX_STRLEN_FOR_INT_TYPE isSigned sizeofT = STRLEN_FOR_INT_TYPE isSigned sizeofT) ∧
      STRLEN_FOR_INT_TYPE false sizeofT = ((sizeofT * CHAR_BIT * 1233) >>> 12) + 1 ∧
      STRLEN_FOR_INT_TYPE true sizeofT = ((sizeofT * CHAR_BIT * 1233) >>> 12) + 1 + 1 ∧
      (∀ v : Nat, v < 2 ^ (sizeofT * CHAR_BIT) →
        decimalLength v ≤ STRLEN_FOR_INT_TYPE false sizeofT) ∧
      (∀ v : Int, -2 ^ (sizeofT * CHAR_BIT - 1) ≤ v → v < 2 ^ (sizeofT * CHAR_BIT - 1) →
        intDecimalLength v ≤ STRLEN_FOR_INT_TYPE true sizeofT) ∧
      decimalLength (2 ^ (sizeofT * CHAR_BIT) - 1) ≤ STRLEN_FOR_INT_TYPE false sizeofT ∧
      intDecimalLength (-2 ^ (sizeofT * CHAR_BIT - 1)) ≤ STRLEN_FOR_INT_TYPE true sizeofT := by
  have hpow : 2 ^ (sizeofT * CHAR_BIT) ≤ 10 ^ STRLEN_FOR_UNSIGNED_TYPE sizeofT := by
    rcases hw with h | h | h | h <;> subst h <;> decide
  have hpos : 0 < STRLEN_FOR_UNSIGNED_TYPE sizeofT := Nat.succ_pos _
  have hhalf : 2 * 2 ^ (sizeofT * CHAR_BIT - 1) = 2 ^ (sizeofT * CHAR_BIT) := by
    rcases hw with h | h | h | h <;> subst h <;> decide
  have hu : ∀ v : Nat, v < 2 ^ (sizeofT * CHAR_BIT) →
      decimalLength v ≤ STRLEN_FOR_INT_TYPE false sizeofT := by
    intro v hv
    exact decimalLength_le_of_lt_pow v _ hpos (lt_of_lt_of_le hv hpow)
  have hs : ∀ v : Int, -2 ^ (sizeofT * CHAR_BIT - 1) ≤ v → v < 2 ^ (sizeofT * CHAR_BIT - 1) →
      intDecimalLength v ≤ STRLEN_FOR_INT_TYPE true sizeofT := by
    intro v hlo hhi
    have hp : (0 : Int) < 2 ^ (sizeofT * CHAR_BIT - 1) := by positivity
    have habs : v.natAbs < 2 ^ (sizeofT * CHAR_BIT) := by
      have h1 : (v.natAbs : Int) ≤ 2 ^ (sizeofT * CHAR_BIT - 1) := by omega
      have h2 : v.natAbs ≤ 2 ^ (sizeofT * CHAR_BIT - 1) := by exact_mod_cast h1
      have h3 : 0 < 2 ^ (sizeofT * CHAR_BIT - 1) := Nat.pow_pos (by norm_num)
      omega
    have hlen := hu v.natAbs habs
    have hst : STRLEN_FOR_INT_TYPE true sizeofT = STRLEN_FOR_INT_TYPE false sizeofT + 1 := rfl
    rw [hst]
    unfold intDecimalLength
    split <;> omega
  refine ⟨fun _ => rfl, rfl, rfl, hu, hs, ?_, ?_⟩
  · apply hu
    have : 0 < 2 ^ (sizeofT * CHAR_BIT) := Nat.pow_pos (by norm_num)
    omega
  · apply hs
    · exact le_refl _
    · have hp : (0 : Int) < 2 ^ (sizeofT * CHAR_BIT - 1) := by positivity
      omega

/-- C8 at the 8 byte types (`w = 64`). -/
theorem STRLEN_FOR_INT_TYPE_bounds_witness :
    (∀ isSigned : Bool, MAX_STRLEN_FOR_INT_TYPE isSigned 8 = STRLEN_FOR_INT_TYPE isSigned 8) ∧
      STRLEN_FOR_INT_TYPE false 8 = ((8 * CHAR_BIT * 1233) >>> 12) + 1 ∧
      STRLEN_FOR_INT_TYPE true 8 = ((8 * CHAR_BIT * 1233) >>> 12) + 1 + 1 ∧
      (∀ v : Nat, v < 2 ^ (8 * CHAR_BIT) → decimalLength v ≤ STRLEN_FOR_INT_TYPE false 8) ∧
      (∀ v : Int, -2 ^ (8 * CHAR_BIT - 1) ≤ v → v < 2 ^ (8 * CHAR_BIT - 1) →
        intDecimalLength v ≤ STRLEN_FOR_INT_TYPE true 8) ∧
      decimalLength (2 ^ (8 * CHAR_BIT) - 1) ≤ STRLEN_FOR_INT_TYPE false 8 ∧
      intDecimalLength (-2 ^ (8 * CHAR_BIT - 1)) ≤ STRLEN_FOR_INT_TYPE true 8 :=
  STRLEN_FOR_INT_TYPE_bounds 8 (by decide)

/-! ### Compiler constants -/

/-- C9 (as stated, refuted): the compiler constant `MAX_LOCALS` is not 256. -/
theorem MAX_LOCALS_ne_256 : MAX_LOCALS ≠ 256 := by
  decide

/-- C9 (amended): `MAX_LOCALS` is 255, the largest `uint8_t`; 256 is `MAX_LOCALS + 1`, the
number of stack slots `STACK_SZ` reserves for each of the `FRAME_SZ` frames. -/
theorem MAX_LOCALS_eq_255 :
    MAX_LOCALS = 255 ∧ MAX_LOCALS = UINT8_MAX ∧ STACK_SZ = FRAME_SZ * 256 := by
  decide

/-! ### compileWithModule on a registered name -/

/-- The registered branch of `moduleFor`: the module fetched and the state as it was. -/
theorem moduleFor_registered (vm : VM) (name : String) (module : ObjModule)
    (h : getModule vm name = some module) : moduleFor vm name = (module, vm) := by
  unfold moduleFor
  rw [h]

/-- C11: when `name` is registered, `compileWithModule` fetches the registered module and
calls `compile` with it in the state it was given: no module is created, the registry is
unchanged, and the globals of the module are unchanged (the globals of `__core__` are not
merged again and `__name__` is not set again). -/
theorem compileWithModule_registered_module {Stmt : Type} (env : Env Stmt) (vm : VM)
    (name : String) (program : Stmt)
    (h : hashTableContainsKey vm.modules name = true) :
    ∃ registered : ObjModule,
      getModule vm name = some registered ∧
        moduleFor vm name = (registered, vm) ∧
        compileWithModule env vm name program = (env.compile vm registered program, vm) ∧
        (compileWithModule env vm name program).2.modules = vm.modules ∧
        (compileWithModule env vm name program).2.stack = vm.stack ∧
        (moduleFor vm name).1.globals = registered.globals ∧
        getModule (moduleFor vm name).2 name = some registered := by
  unfold hashTableContainsKey at h
  cases hget : hashTableGet vm.modules name with
  | none =>
    rw [hget] at h
    exact absurd h (by decide)
  | some registered =>
    have hm : getModule vm name = some registered := hget
    have hfor := moduleFor_registered vm name registered hm
    have hcomp : compileWithModule env vm name program =
        (env.compile vm registered program, vm) := by
      unfold compileWithModule
      rw [hfor]
    refine ⟨registered, hm, hfor, hcomp, ?_, ?_, ?_, ?_⟩
    · rw [hcomp]
    · rw [hcomp]
    · rw [hfor]
    · rw [hfor]
      exact hm

/-- C11 at `fooVM`, where `foo` is registered with a module without globals. -/
theorem compileWithModule_registered_module_witness :
    ∃ registered : ObjModule,
      getModule fooVM "foo" = some registered ∧
        moduleFor fooVM "foo" = (registered, fooVM) ∧
        compileWithModule fooEnv fooVM "foo" "var x = 42" =
          (fooEnv.compile fooVM registered "var x = 42", fooVM) ∧
        (compileWithModule fooEnv fooVM "foo" "var x = 42").2.modules = fooVM.modules ∧
        (compileWithModule fooEnv fooVM "foo" "var x = 42").2.stack = fooVM.stack ∧
        (moduleFor fooVM "foo").1.globals = registered.globals ∧
        getModule (moduleFor fooVM "foo").2 "foo" = some registered :=
  compileWithModule_registered_module fooEnv fooVM "foo" "var x = 42" (by decide)

/-- At `fooVM` the module compiled against still has no `__name__` and no `print`, although
`__core__` is registered and binds both. -/
theorem moduleFor_fooVM_globals :
    hashTableGet (moduleFor fooVM "foo").1.globals "__name__" = none ∧
      hashTableGet (moduleFor fooVM "foo").1.globals "print" = none ∧
      hashTableContainsKey fooVM.modules "__core__" = true := by
  decide

/-! ### Tokens -/

/-- C12: for every token type `t`, `IS_COMPUND_ASSIGN(t)` holds exactly when `t` is one of
`TOK_PLUS_EQ`, `TOK_MINUS_EQ`, `TOK_DIV_EQ`, `TOK_MULT_EQ`, `TOK_MOD_EQ`; `COMPUND_ASS_TO_OP`
sends these to `TOK_PLUS`, `TOK_MINUS`, `TOK_DIV`, `TOK_MULT`, `TOK_MOD` in this order, and
none of the five results satisfies `IS_ASSIGN`. -/
theorem COMPUND_ASS_TO_OP_of_compound_assign :
    (∀ t : TokenType, IS_COMPUND_ASSIGN t.val = true ↔
        (t = TokenType.TOK_PLUS_EQ ∨ t = TokenType.TOK_MINUS_EQ ∨ t = TokenType.TOK_DIV_EQ ∨
          t = TokenType.TOK_MULT_EQ ∨ t = TokenType.TOK_MOD_EQ)) ∧
      COMPUND_ASS_TO_OP TokenType.TOK_PLUS_EQ.val = TokenType.TOK_PLUS.val ∧
      COMPUND_ASS_TO_OP TokenType.TOK_MINUS_EQ.val = TokenType.TOK_MINUS.val ∧
      COMPUND_ASS_TO_OP TokenType.TOK_DIV_EQ.val = TokenType.TOK_DIV.val ∧
      COMPUND_ASS_TO_OP TokenType.TOK_MULT_EQ.val = TokenType.TOK_MULT.val ∧
      COMPUND_ASS_TO_OP TokenType.TOK_MOD_EQ.val = TokenType.TOK_MOD.val ∧
      (∀ t : TokenType,
        IS_COMPUND_ASSIGN t.val = false ∨ IS_ASSIGN (COMPUND_ASS_TO_OP t.val) = false) := by
  refine ⟨?_, by decide, by decide, by decide, by decide, by decide, ?_⟩
  · intro t
    cases t <;> decide
  · intro t
    cases t <;> decide

end JStar
